import Mathlib

/-!
# Verification of `lib/Utils/ios-webview-helper.js`

A shallow embedding of the iOS webview message helper.  JavaScript values are
modelled by `JSVal` (numbers as integers, which covers every numeric value the
module itself produces), JavaScript objects by association lists, and the
embedded-JSON wire format by an executable `jsonStringify` / `jsonParse` pair
over `JSVal`, proved to round-trip up to the normalisation JSON performs
(`undefined`-valued object fields are dropped, `undefined` array elements
become `null`).
-/

set_option maxHeartbeats 1000000
set_option maxRecDepth 8000

/-- Model of the JavaScript values flowing through the helper.  Numbers are
modelled as integers: the module itself only produces the integer literals
`3`, `1` and button indices, and no arithmetic is performed on caller-supplied
numbers. -/
inductive JSVal where
  | undefined : JSVal
  | null : JSVal
  | bool (b : Bool) : JSVal
  | num (n : Int) : JSVal
  | str (s : String) : JSVal
  | arr (elems : List JSVal) : JSVal
  | obj (fields : List (String × JSVal)) : JSVal

/-- A JavaScript object: an association list of fields.  Real JS objects have
pairwise-distinct keys; lookups below take the first matching entry. -/
abbrev JSObj := List (String × JSVal)

mutual

/-- Boolean structural equality on `JSVal` (the derive handler does not cover
nested inductives, so the decidable-equality instance is built by hand). -/
def beqVal : JSVal → JSVal → Bool
  | .undefined, .undefined => true
  | .null, .null => true
  | .bool a, .bool b => a == b
  | .num a, .num b => a == b
  | .str a, .str b => a == b
  | .arr a, .arr b => beqList a b
  | .obj a, .obj b => beqFields a b
  | _, _ => false

/-- Boolean equality on lists of values. -/
def beqList : List JSVal → List JSVal → Bool
  | [], [] => true
  | a :: as, b :: bs => beqVal a b && beqList as bs
  | _, _ => false

/-- Boolean equality on field lists. -/
def beqFields : List (String × JSVal) → List (String × JSVal) → Bool
  | [], [] => true
  | (k, v) :: as, (k2, v2) :: bs => k == k2 && beqVal v v2 && beqFields as bs
  | _, _ => false

end

mutual

theorem beqVal_iff : (a b : JSVal) → (beqVal a b = true ↔ a = b)
  | .undefined, b => by cases b <;> simp [beqVal]
  | .null, b => by cases b <;> simp [beqVal]
  | .bool x, b => by cases b <;> simp [beqVal]
  | .num x, b => by cases b <;> simp [beqVal]
  | .str x, b => by cases b <;> simp [beqVal]
  | .arr xs, .undefined => by simp [beqVal]
  | .arr xs, .null => by simp [beqVal]
  | .arr xs, .bool y => by simp [beqVal]
  | .arr xs, .num y => by simp [beqVal]
  | .arr xs, .str y => by simp [beqVal]
  | .arr xs, .arr ys => by simpa [beqVal] using beqList_iff xs ys
  | .arr xs, .obj gs => by simp [beqVal]
  | .obj fs, .undefined => by simp [beqVal]
  | .obj fs, .null => by simp [beqVal]
  | .obj fs, .bool y => by simp [beqVal]
  | .obj fs, .num y => by simp [beqVal]
  | .obj fs, .str y => by simp [beqVal]
  | .obj fs, .arr ys => by simp [beqVal]
  | .obj fs, .obj gs => by simpa [beqVal] using beqFields_iff fs gs

theorem beqList_iff : (as bs : List JSVal) → (beqList as bs = true ↔ as = bs)
  | [], [] => by simp [beqList]
  | [], _ :: _ => by simp [beqList]
  | _ :: _, [] => by simp [beqList]
  | a :: as, b :: bs => by
    simp [beqList, Bool.and_eq_true, beqVal_iff a b, beqList_iff as bs]

theorem beqFields_iff :
    (fs gs : List (String × JSVal)) → (beqFields fs gs = true ↔ fs = gs)
  | [], [] => by simp [beqFields]
  | [], _ :: _ => by simp [beqFields]
  | _ :: _, [] => by simp [beqFields]
  | (k, v) :: fs, (k2, v2) :: gs => by
    simp [beqFields, Bool.and_eq_true, beqVal_iff v v2, beqFields_iff fs gs,
      Prod.ext_iff, and_assoc]

end

instance : DecidableEq JSVal := fun a b => decidable_of_iff _ (beqVal_iff a b)

/-- JavaScript truthiness (`Boolean(v)`). -/
def truthy : JSVal → Bool
  | .undefined => false
  | .null => false
  | .bool b => b
  | .num n => n != 0
  | .str s => s != ""
  | .arr _ => true
  | .obj _ => true

/-- The JavaScript `a || b` operator. -/
def jsOr (a b : JSVal) : JSVal := if truthy a then a else b

/-- Property access `o.k` on an object: `undefined` when the key is absent. -/
def objGet (o : JSObj) (k : String) : JSVal := (o.lookup k).getD .undefined

/-- Property access `v.k` on an arbitrary value.  On non-objects the result is
`undefined`; in JS an access on `null`/`undefined` throws instead, which the
`Except`-instrumented variant `jsGetFieldE` below models precisely. -/
def jsGetField (v : JSVal) (k : String) : JSVal :=
  match v with
  | .obj fs => objGet fs k
  | _ => .undefined

/-- Property access that surfaces the JS `TypeError` on `null`/`undefined`
receivers as an `Except` error. -/
def jsGetFieldE (v : JSVal) (k : String) : Except String JSVal :=
  match v with
  | .undefined => .error "TypeError"
  | .null => .error "TypeError"
  | .obj fs => .ok (objGet fs k)
  | _ => .ok .undefined

mutual

/-- The normalisation `JSON.parse (JSON.stringify v)` performs on a value:
`undefined`-valued object fields are dropped, and `undefined` elsewhere
(array elements) serialises as `null`. -/
def strip : JSVal → JSVal
  | .undefined => .null
  | .null => .null
  | .bool b => .bool b
  | .num n => .num n
  | .str s => .str s
  | .arr xs => .arr (stripList xs)
  | .obj fs => .obj (stripFields fs)

/-- `strip` on array elements. -/
def stripList : List JSVal → List JSVal
  | [] => []
  | x :: xs => strip x :: stripList xs

/-- `strip` on object fields: `undefined`-valued fields are dropped. -/
def stripFields : List (String × JSVal) → List (String × JSVal)
  | [] => []
  | (k, v) :: fs =>
    if v = JSVal.undefined then stripFields fs else (k, strip v) :: stripFields fs

end

/-- The decimal digit character for `d < 10`. -/
def digitChar (d : Nat) : Char := Char.ofNat (48 + d)

/-- Lowercase hexadecimal digit character for `n < 16`. -/
def hexDigitChar (n : Nat) : Char :=
  if n < 10 then Char.ofNat (48 + n) else Char.ofNat (87 + n)

/-- Decimal digits of a number, most significant first, empty on `0`; the
first argument is recursion fuel (any fuel `≥ n` yields all digits of `n`). -/
def natCharsAux : Nat → Nat → List Char
  | _, 0 => []
  | 0, _ + 1 => []
  | fuel + 1, n + 1 =>
    natCharsAux fuel ((n + 1) / 10) ++ [digitChar ((n + 1) % 10)]

/-- Decimal representation of a natural number. -/
def natDigitsChars (n : Nat) : List Char :=
  if n = 0 then ['0'] else natCharsAux n n

/-- Decimal representation of an integer, as `JSON.stringify` prints it. -/
def intChars (n : Int) : List Char :=
  if n < 0 then '-' :: natDigitsChars n.natAbs else natDigitsChars n.toNat

/-- The escape sequence `JSON.stringify` emits for one string character. -/
def escapeChar (c : Char) : List Char :=
  if c = '"' then ['\\', '"']
  else if c = '\\' then ['\\', '\\']
  else if c = '\n' then ['\\', 'n']
  else if c = '\t' then ['\\', 't']
  else if c = '\r' then ['\\', 'r']
  else if c = Char.ofNat 8 then ['\\', 'b']
  else if c = Char.ofNat 12 then ['\\', 'f']
  else if c.toNat < 32 then
    ['\\', 'u', '0', '0', hexDigitChar (c.toNat / 16), hexDigitChar (c.toNat % 16)]
  else [c]

/-- Escape a whole string body. -/
def escapeChars (l : List Char) : List Char := (l.map escapeChar).flatten

mutual

/-- Serialise a normalised value exactly as `JSON.stringify` prints it: no
whitespace, fields in insertion order.  It is applied to `strip v`, which has
already dropped `undefined` fields. -/
def stringifyVal : JSVal → List Char
  | .num n => intChars n
  | .str s => '"' :: escapeChars s.data ++ ['"']
  | .arr xs => '[' :: stringifyElems xs ++ [']']
  | .obj fs => '{' :: stringifyFields fs ++ ['}']
  | .undefined => ['n', 'u', 'l', 'l']
  | .null => ['n', 'u', 'l', 'l']
  | .bool false => ['f', 'a', 'l', 's', 'e']
  | .bool true => ['t', 'r', 'u', 'e']

/-- Comma-separated serialisation of array elements. -/
def stringifyElems : List JSVal → List Char
  | [] => []
  | [x] => stringifyVal x
  | x :: y :: xs => stringifyVal x ++ ',' :: stringifyElems (y :: xs)

/-- Comma-separated serialisation of object fields. -/
def stringifyFields : List (String × JSVal) → List Char
  | [] => []
  | [(k, v)] => '"' :: escapeChars k.data ++ '"' :: ':' :: stringifyVal v
  | (k, v) :: kv :: fs =>
    ('"' :: escapeChars k.data ++ '"' :: ':' :: stringifyVal v) ++
      ',' :: stringifyFields (kv :: fs)

end

/-- `JSON.stringify` on a JSON-serialisable argument (the module only ever
stringifies plain objects): normalise `undefined` away, then print. -/
def jsonStringify (v : JSVal) : String := String.mk (stringifyVal (strip v))

/-- Numeric value of a hexadecimal digit character. -/
def hexVal (c : Char) : Option Nat :=
  if '0' ≤ c ∧ c ≤ '9' then some (c.toNat - 48)
  else if 'a' ≤ c ∧ c ≤ 'f' then some (c.toNat - 87)
  else if 'A' ≤ c ∧ c ≤ 'F' then some (c.toNat - 55)
  else none

/-- Resolution of a single-character JSON escape. -/
def unescapeChar (c : Char) : Option Char :=
  if c = '"' then some '"'
  else if c = '\\' then some '\\'
  else if c = '/' then some '/'
  else if c = 'n' then some '\n'
  else if c = 't' then some '\t'
  else if c = 'r' then some '\r'
  else if c = 'b' then some (Char.ofNat 8)
  else if c = 'f' then some (Char.ofNat 12)
  else none

/-- Parse the body of a JSON string literal (the opening quote already
consumed), returning the decoded characters and the rest of the input. -/
def parseStringBody : List Char → Option (List Char × List Char)
  | [] => none
  | c :: cs =>
    if c = '"' then some ([], cs)
    else if c = '\\' then
      match cs with
      | [] => none
      | e :: cs2 =>
        if e = 'u' then
          match cs2 with
          | a :: b :: c2 :: d :: cs3 =>
            match hexVal a, hexVal b, hexVal c2, hexVal d with
            | some ha, some hb, some hc, some hd =>
              match parseStringBody cs3 with
              | some (l, r) =>
                some (Char.ofNat (((ha * 16 + hb) * 16 + hc) * 16 + hd) :: l, r)
              | none => none
            | _, _, _, _ => none
          | _ => none
        else
          match unescapeChar e with
          | some u =>
            match parseStringBody cs2 with
            | some (l, r) => some (u :: l, r)
            | none => none
          | none => none
    else
      match parseStringBody cs with
      | some (l, r) => some (c :: l, r)
      | none => none

/-- Greedily split a run of decimal digits off the front of the input. -/
def spanDigits (cs : List Char) : List Char × List Char :=
  (cs.takeWhile Char.isDigit, cs.dropWhile Char.isDigit)

/-- Numeric value of a run of decimal digit characters. -/
def digitsToNat (ds : List Char) : Nat :=
  ds.foldl (fun a c => 10 * a + (c.toNat - 48)) 0

/-- Parse `null` after a leading `n`. -/
def parseNull (cs : List Char) : Option (JSVal × List Char) :=
  match cs with
  | 'u' :: 'l' :: 'l' :: rest => some (.null, rest)
  | _ => none

/-- Parse `true` after a leading `t`. -/
def parseTrue (cs : List Char) : Option (JSVal × List Char) :=
  match cs with
  | 'r' :: 'u' :: 'e' :: rest => some (.bool true, rest)
  | _ => none

/-- Parse `false` after a leading `f`. -/
def parseFalse (cs : List Char) : Option (JSVal × List Char) :=
  match cs with
  | 'a' :: 'l' :: 's' :: 'e' :: rest => some (.bool false, rest)
  | _ => none

/-- Parse a string literal after the opening quote. -/
def parseStrLit (cs : List Char) : Option (JSVal × List Char) :=
  match parseStringBody cs with
  | some (l, r) => some (.str (String.mk l), r)
  | none => none

/-- Parse a negative number after the leading minus sign. -/
def parseNumNeg (cs : List Char) : Option (JSVal × List Char) :=
  let p := spanDigits cs
  if p.1.isEmpty then none else some (.num (-(digitsToNat p.1 : Int)), p.2)

/-- Parse a nonnegative number (the leading digit still in the input). -/
def parseNumPos (cs : List Char) : Option (JSVal × List Char) :=
  let p := spanDigits cs
  if p.1.isEmpty then none else some (.num ((digitsToNat p.1 : Int)), p.2)

mutual

/-- Recursive-descent parser for the whitespace-free JSON that `jsonStringify`
emits (the module only ever parses strings produced by its own
`JSON.stringify` in the same invocation).  The fuel argument bounds recursion
depth; `jsonParse` supplies enough for any input. -/
def parseVal : Nat → List Char → Option (JSVal × List Char)
  | 0, _ => none
  | _ + 1, [] => none
  | fuel + 1, c :: cs =>
    if c = 'n' then parseNull cs
    else if c = 't' then parseTrue cs
    else if c = 'f' then parseFalse cs
    else if c = '"' then parseStrLit cs
    else if c = '[' then
      if cs.head? = some ']' then some (.arr [], cs.tail)
      else parseElems fuel cs []
    else if c = '{' then
      if cs.head? = some '}' then some (.obj [], cs.tail)
      else parseFields fuel cs []
    else if c = '-' then parseNumNeg cs
    else if c.isDigit then parseNumPos (c :: cs)
    else none

/-- Parse the elements of a non-empty array (the opening bracket already
consumed), accumulating parsed elements. -/
def parseElems : Nat → List Char → List JSVal → Option (JSVal × List Char)
  | 0, _, _ => none
  | fuel + 1, cs, acc =>
    match parseVal fuel cs with
    | none => none
    | some (v, r) =>
      if r.head? = some ']' then some (.arr (acc ++ [v]), r.tail)
      else if r.head? = some ',' then parseElems fuel r.tail (acc ++ [v])
      else none

/-- Parse the fields of a non-empty object (the opening brace already
consumed), accumulating parsed fields. -/
def parseFields : Nat → List Char → List (String × JSVal) →
    Option (JSVal × List Char)
  | 0, _, _ => none
  | fuel + 1, cs, acc =>
    if cs.head? = some '"' then
      match parseStringBody cs.tail with
      | some (k, r1) =>
        if r1.head? = some ':' then
          match parseVal fuel r1.tail with
          | some (v, r2) =>
            if r2.head? = some '}' then
              some (.obj (acc ++ [(String.mk k, v)]), r2.tail)
            else if r2.head? = some ',' then
              parseFields fuel r2.tail (acc ++ [(String.mk k, v)])
            else none
          | none => none
        else none
      | none => none
    else none

end

/-- `JSON.parse`: parse the whole input, rejecting trailing characters. -/
def jsonParse (s : String) : Option JSVal :=
  match parseVal (s.length + 1) s.data with
  | some (v, []) => some v
  | _ => none

mutual

/-- JavaScript `String(v)` coercion, as `JSON.parse` applies it to its
argument.  Composite cases follow `Array.prototype.toString` /
`Object.prototype.toString`; in this module only the string case is ever
reached, since the parsed value is always a freshly stringified object. -/
def jsCoerceString : JSVal → String
  | .undefined => "undefined"
  | .null => "null"
  | .bool true => "true"
  | .bool false => "false"
  | .num n => String.mk (intChars n)
  | .str s => s
  | .arr xs => jsArrJoin xs
  | .obj _ => "[object Object]"

/-- `Array.prototype.toString`: elements joined with commas. -/
def jsArrJoin : List JSVal → String
  | [] => ""
  | [x] => jsElemString x
  | x :: y :: xs => jsElemString x ++ "," ++ jsArrJoin (y :: xs)

/-- One array element under `Array.prototype.toString`: `null` and
`undefined` print as the empty string, other values as their coercion. -/
def jsElemString : JSVal → String
  | .undefined => ""
  | .null => ""
  | .bool true => "true"
  | .bool false => "false"
  | .num n => String.mk (intChars n)
  | .str s => s
  | .arr xs => jsArrJoin xs
  | .obj _ => "[object Object]"

end

/-!
## The embedded program

`createIOSWebviewMessage` from `lib/Utils/ios-webview-helper.js`, translated
clause by clause.  Caller inputs are taken at the type the source documents:
`buttons` an array of button objects, `contextInfo` an object, the scalar
options arbitrary values (`undefined` when not supplied, matching the
destructuring defaults `buttons = []`, `contextInfo = {}`).
-/

/-- The params mapping built for a matching button (source lines 34-41).
The `!== undefined ? x : default` ternaries become a match on `undefined`;
`||` defaults become `jsOr`. -/
def buttonParams (b : JSObj) : JSObj :=
  [("display_text", jsOr (objGet b "displayText") (objGet b "text")),
   ("url", objGet b "url"),
   ("webview_presentation", jsOr (objGet b "webviewPresentation") JSVal.null),
   ("payment_link_preview",
     if objGet b "paymentLinkPreview" = JSVal.undefined then JSVal.bool false
     else objGet b "paymentLinkPreview"),
   ("landing_page_url", jsOr (objGet b "landingPageUrl") (objGet b "url")),
   ("webview_interaction",
     if objGet b "webviewInteraction" = JSVal.undefined then JSVal.bool true
     else objGet b "webviewInteraction")]

/-- One step of the `buttons.map` callback (source lines 33-48): a button
whose `type` is `"webview"` or whose `name` is `"cta_url"` is replaced by the
normalised descriptor; anything else passes through unchanged. -/
def processButton (b : JSObj) : JSObj :=
  if objGet b "type" = JSVal.str "webview" ∨ objGet b "name" = JSVal.str "cta_url" then
    [("name", JSVal.str "cta_url"),
     ("buttonParamsJson", JSVal.str (jsonStringify (JSVal.obj (buttonParams b))))]
  else b

/-- The filter predicate `btn.name === 'cta_url'` (source line 52). -/
def nameIsCtaUrl (b : JSObj) : Bool :=
  decide (objGet b "name" = JSVal.str "cta_url")

/-- `processedButtons` (source line 33). -/
def processedButtonsOf (buttons : List JSObj) : List JSObj :=
  buttons.map processButton

/-- `urlButtons` (source line 52). -/
def urlButtonsOf (buttons : List JSObj) : List JSObj :=
  (processedButtonsOf buttons).filter nameIsCtaUrl

/-- `list.map((x, index) => f index x)` with an explicit starting index. -/
def mapWithIndex (f : Nat → JSObj → JSObj) : Nat → List JSObj → List JSObj
  | _, [] => []
  | i, x :: xs => f i x :: mapWithIndex f (i + 1) xs

/-- The tap-target callback (source lines 53-70).  The `try` block parses the
button's `buttonParamsJson` and reads `url` / `landing_page_url` with `||`
fallbacks; on parse failure the initial empty strings survive.  (The source
also computes a `landingPageUrl` local that the returned object never uses.)
Field access on a non-object parse result yields `undefined` here; the one
case where JS would instead throw inside the `try` (a parsed `null`) leaves
the same empty-string default, as `mkTapTargetE_ok` below proves. -/
def mkTapTarget (i : Nat) (b : JSObj) : JSObj :=
  let cu : JSVal :=
    match jsonParse (jsCoerceString (objGet b "buttonParamsJson")) with
    | some p => jsOr (jsGetField p "url") (jsOr (jsGetField p "landing_page_url") (JSVal.str ""))
    | none => JSVal.str ""
  [("canonical_url", cu),
   ("url_type", JSVal.str "STATIC"),
   ("button_index", JSVal.num i),
   ("tap_target_format", JSVal.num 1)]

/-- `tapTargetList` (source lines 53-71): one tap target per URL button,
indexed by position in the filtered sequence. -/
def tapTargetListOf (buttons : List JSObj) : List JSObj :=
  mapWithIndex mkTapTarget 0 (urlButtonsOf buttons)

/-- The object serialised into `messageParamsJson` (source lines 73-80). -/
def messageParamsFromList (ttl : List JSObj) : JSVal :=
  JSVal.obj
    [("bottom_sheet",
       JSVal.obj [("in_thread_buttons_limit", JSVal.num 3),
                  ("divider_indices", JSVal.arr [])]),
     ("tap_target_configuration",
       match ttl with
       | [] => JSVal.obj []
       | t :: _ => JSVal.obj t),
     ("tap_target_list", JSVal.arr (ttl.map JSVal.obj))]

/-- The message-params object for a button list. -/
def messageParamsOf (buttons : List JSObj) : JSVal :=
  messageParamsFromList (tapTargetListOf buttons)

/-- The object spread `\x7b ...a, ...b \x7d` restricted to two objects:
`b`'s entries win on key collision. -/
def spreadMerge (a b : JSObj) : JSObj :=
  a.filter (fun kv => (b.lookup kv.1).isNone) ++ b

/-- The options object of `createIOSWebviewMessage`, at the documented
types; absent optional fields are `undefined`, and the destructuring
defaults `buttons = []`, `contextInfo = \x7b\x7d` are the field defaults. -/
structure IOSWebviewOptions where
  bodyText : JSVal := .undefined
  footerText : JSVal := .undefined
  title : JSVal := .undefined
  subtitle : JSVal := .undefined
  imageMessage : JSVal := .undefined
  buttons : List JSObj := []
  contextInfo : JSObj := []
deriving DecidableEq

/-- The header object, built only when an image, title or subtitle is
truthy; each of its optional fields is added only when truthy. -/
structure IOSHeader where
  hasMediaAttachment : Bool
  imageMessage : Option JSVal
  title : Option JSVal
  subtitle : Option JSVal
deriving DecidableEq

/-- `nativeFlowMessage`. -/
structure NativeFlowMessage where
  buttons : List JSObj
  messageParamsJson : String
deriving DecidableEq

/-- The assembled interactive message (source lines 83-125). `header` and
`footer` are `Option`s: `none` models the key being absent. -/
structure InteractiveMessage where
  body : JSObj
  nativeFlowMessage : NativeFlowMessage
  contextInfo : JSObj
  header : Option IOSHeader
  footer : Option JSObj
deriving DecidableEq

/-- The function's return value `\x7b interactiveMessage \x7d`. -/
structure IOSWebviewMessageResult where
  interactiveMessage : InteractiveMessage
deriving DecidableEq

/-- Assembly of the result from the normalised buttons and the tap-target
list (source lines 73-127). -/
def assembleMessage (opts : IOSWebviewOptions) (ttl : List JSObj) :
    IOSWebviewMessageResult :=
  { interactiveMessage :=
    { body := [("text", opts.bodyText)]
      nativeFlowMessage :=
        { buttons := processedButtonsOf opts.buttons
          messageParamsJson := jsonStringify (messageParamsFromList ttl) }
      contextInfo :=
        spreadMerge
          [("dataSharingContext", JSVal.obj [("showMmDisclosure", JSVal.bool false)])]
          opts.contextInfo
      header :=
        if truthy opts.imageMessage || truthy opts.title || truthy opts.subtitle then
          some
            { hasMediaAttachment := truthy opts.imageMessage
              imageMessage :=
                if truthy opts.imageMessage then some opts.imageMessage else none
              title := if truthy opts.title then some opts.title else none
              subtitle := if truthy opts.subtitle then some opts.subtitle else none }
        else none
      footer :=
        if truthy opts.footerText then some [("text", opts.footerText)] else none } }

/-- `createIOSWebviewMessage(options)` (source lines 20-128). -/
def createIOSWebviewMessage (opts : IOSWebviewOptions) : IOSWebviewMessageResult :=
  assembleMessage opts (tapTargetListOf opts.buttons)

/-- `JSON.parse` with its `SyntaxError` surfaced as an `Except` error. -/
def jsonParseE (s : String) : Except String JSVal :=
  match jsonParse s with
  | some v => .ok v
  | none => .error "SyntaxError"

/-- The tap-target callback with every throwing operation inside the `try`
block (the `JSON.parse` and the two property reads) sequenced in `Except`;
the `catch` keeps the empty-string defaults. -/
def mkTapTargetE (i : Nat) (b : JSObj) : Except String JSObj :=
  let attempt : Except String JSVal := do
    let p ← jsonParseE (jsCoerceString (objGet b "buttonParamsJson"))
    let u ← jsGetFieldE p "url"
    let l ← jsGetFieldE p "landing_page_url"
    Except.ok (jsOr u (jsOr l (JSVal.str "")))
  let cu : JSVal :=
    match attempt with
    | .ok v => v
    | .error _ => JSVal.str ""
  Except.ok
    [("canonical_url", cu),
     ("url_type", JSVal.str "STATIC"),
     ("button_index", JSVal.num i),
     ("tap_target_format", JSVal.num 1)]

/-- Indexed map in `Except`. -/
def mapWithIndexE (f : Nat → JSObj → Except String JSObj) :
    Nat → List JSObj → Except String (List JSObj)
  | _, [] => .ok []
  | i, x :: xs => do
    let y ← f i x
    let ys ← mapWithIndexE f (i + 1) xs
    .ok (y :: ys)

/-- `createIOSWebviewMessage` with exceptions made explicit: the only
fallible steps are inside the per-button `try` block. -/
def createIOSWebviewMessageE (opts : IOSWebviewOptions) :
    Except String IOSWebviewMessageResult := do
  let ttl ← mapWithIndexE mkTapTargetE 0 (urlButtonsOf opts.buttons)
  Except.ok (assembleMessage opts ttl)

/-- The options of `createWebviewButton`. -/
structure WebviewButtonOptions where
  text : JSVal := .undefined
  url : JSVal := .undefined
  landingPageUrl : JSVal := .undefined
  webviewInteraction : JSVal := .undefined
  webviewPresentation : JSVal := .undefined
  paymentLinkPreview : JSVal := .undefined
deriving DecidableEq

/-- `createWebviewButton(options)` (source lines 141-160); the destructuring
defaults apply exactly when the field is `undefined`. -/
def createWebviewButton (o : WebviewButtonOptions) : JSObj :=
  [("type", JSVal.str "webview"),
   ("displayText", o.text),
   ("url", o.url),
   ("landingPageUrl", jsOr o.landingPageUrl o.url),
   ("webviewInteraction",
     if o.webviewInteraction = JSVal.undefined then JSVal.bool true
     else o.webviewInteraction),
   ("paymentLinkPreview",
     if o.paymentLinkPreview = JSVal.undefined then JSVal.bool false
     else o.paymentLinkPreview),
   ("webviewPresentation",
     if o.webviewPresentation = JSVal.undefined then JSVal.null
     else o.webviewPresentation)]

/-!
## Round-trip correctness of the JSON pair

`jsonParse (jsonStringify v) = some (strip v)`, the backbone of the
tap-target claims: every string the module parses was produced by its own
`JSON.stringify` in the same call.
-/

theorem mk_data (s : String) : String.mk s.data = s := rfl

theorem digitChar_toNat (d : Nat) (h : d < 10) : (digitChar d).toNat = 48 + d := by
  interval_cases d <;> decide

theorem digitChar_isDigit (d : Nat) (h : d < 10) : (digitChar d).isDigit = true := by
  interval_cases d <;> decide

theorem natCharsAux_eq : ∀ (fuel n : Nat), n ≤ fuel →
    natCharsAux fuel n = ((Nat.digits 10 n).map digitChar).reverse
  | _, 0, _ => by simp [natCharsAux]
  | 0, n + 1, h => absurd h (by omega)
  | f + 1, n + 1, h => by
    have hdiv : (n + 1) / 10 < n + 1 := Nat.div_lt_self (Nat.succ_pos n) (by norm_num)
    rw [natCharsAux, natCharsAux_eq f ((n + 1) / 10) (by omega),
      Nat.digits_def' (by norm_num : (1 : Nat) < 10) (Nat.succ_pos n)]
    simp

theorem natDigitsChars_eq (n : Nat) (h : n ≠ 0) :
    natDigitsChars n = ((Nat.digits 10 n).map digitChar).reverse := by
  rw [natDigitsChars, if_neg h, natCharsAux_eq n n le_rfl]

theorem natDigitsChars_all_digits (n : Nat) :
    ∀ c ∈ natDigitsChars n, c.isDigit = true := by
  by_cases h : n = 0
  · subst h; intro c hc; simp [natDigitsChars] at hc; subst hc; decide
  · rw [natDigitsChars_eq n h]
    intro c hc
    simp only [List.mem_reverse, List.mem_map] at hc
    obtain ⟨d, hd, rfl⟩ := hc
    exact digitChar_isDigit d (Nat.digits_lt_base (by norm_num) hd)

theorem natDigitsChars_ne_nil (n : Nat) : natDigitsChars n ≠ [] := by
  by_cases h : n = 0
  · subst h; simp [natDigitsChars]
  · rw [natDigitsChars_eq n h]
    simp [Nat.digits_ne_nil_iff_ne_zero, h]

theorem digitsToNat_natDigitsChars (n : Nat) :
    digitsToNat (natDigitsChars n) = n := by
  by_cases h : n = 0
  · subst h; rfl
  · rw [natDigitsChars_eq n h]
    rw [digitsToNat, List.foldl_reverse, List.foldr_map]
    have key : ∀ ds : List Nat, (∀ d ∈ ds, d < 10) →
        ds.foldr (fun d a => 10 * a + ((digitChar d).toNat - 48)) 0 =
          Nat.ofDigits 10 ds := by
      intro ds hds
      induction ds with
      | nil => simp [Nat.ofDigits]
      | cons d ds ih =>
        rw [List.foldr_cons, Nat.ofDigits_cons,
          ih (fun x hx => hds x (List.mem_cons_of_mem d hx)),
          digitChar_toNat d (hds d (List.mem_cons_self d ds))]
        omega
    rw [key (Nat.digits 10 n) (fun d hd => Nat.digits_lt_base (by norm_num) hd)]
    exact_mod_cast Nat.ofDigits_digits 10 n

theorem spanDigits_append (l1 l2 : List Char)
    (h1 : ∀ c ∈ l1, c.isDigit = true)
    (h2 : ∀ c, l2.head? = some c → c.isDigit = false) :
    spanDigits (l1 ++ l2) = (l1, l2) := by
  induction l1 with
  | nil =>
    cases l2 with
    | nil => rfl
    | cons c cs =>
      have := h2 c rfl
      simp [spanDigits, List.takeWhile, List.dropWhile, this]
  | cons c cs ih =>
    have hc := h1 c (List.mem_cons_self c cs)
    have ht := ih (fun x hx => h1 x (List.mem_cons_of_mem c hx))
    simp only [spanDigits, Prod.mk.injEq] at ht ⊢
    simp [List.takeWhile, List.dropWhile, hc, ht.1, ht.2]

theorem hexVal_hexDigitChar (m : Nat) (h : m < 16) :
    hexVal (hexDigitChar m) = some m := by
  interval_cases m <;> decide

theorem escapeChars_cons (c : Char) (l : List Char) :
    escapeChars (c :: l) = escapeChar c ++ escapeChars l := by
  simp [escapeChars]

theorem parseStringBody_escape : ∀ (l rest : List Char),
    parseStringBody (escapeChars l ++ '"' :: rest) = some (l, rest)
  | [], rest => by
    rw [show escapeChars [] = [] from rfl, List.nil_append, parseStringBody.eq_def]
    simp
  | c :: l, rest => by
    have ih := parseStringBody_escape l rest
    rw [escapeChars_cons]
    by_cases h1 : c = '"'
    · subst h1
      rw [show escapeChar '"' = ['\\', '"'] from by decide]
      show parseStringBody ('\\' :: '"' :: (escapeChars l ++ '"' :: rest)) = _
      rw [parseStringBody.eq_def]
      simp [unescapeChar, ih]
    · by_cases h2 : c = '\\'
      · subst h2
        rw [show escapeChar '\\' = ['\\', '\\'] from by decide]
        show parseStringBody ('\\' :: '\\' :: (escapeChars l ++ '"' :: rest)) = _
        rw [parseStringBody.eq_def]
        simp [unescapeChar, ih]
      · by_cases h3 : c = '\n'
        · subst h3
          rw [show escapeChar '\n' = ['\\', 'n'] from by decide]
          show parseStringBody ('\\' :: 'n' :: (escapeChars l ++ '"' :: rest)) = _
          rw [parseStringBody.eq_def]
          simp [unescapeChar, ih]
        · by_cases h4 : c = '\t'
          · subst h4
            rw [show escapeChar '\t' = ['\\', 't'] from by decide]
            show parseStringBody ('\\' :: 't' :: (escapeChars l ++ '"' :: rest)) = _
            rw [parseStringBody.eq_def]
            simp [unescapeChar, ih]
          · by_cases h5 : c = '\r'
            · subst h5
              rw [show escapeChar '\r' = ['\\', 'r'] from by decide]
              show parseStringBody ('\\' :: 'r' :: (escapeChars l ++ '"' :: rest)) = _
              rw [parseStringBody.eq_def]
              simp [unescapeChar, ih]
            · by_cases h6 : c = Char.ofNat 8
              · subst h6
                rw [show escapeChar (Char.ofNat 8) = ['\\', 'b'] from by decide]
                show parseStringBody ('\\' :: 'b' :: (escapeChars l ++ '"' :: rest)) = _
                rw [parseStringBody.eq_def]
                simp [unescapeChar, ih]
              · by_cases h7 : c = Char.ofNat 12
                · subst h7
                  rw [show escapeChar (Char.ofNat 12) = ['\\', 'f'] from by decide]
                  show parseStringBody ('\\' :: 'f' :: (escapeChars l ++ '"' :: rest)) = _
                  rw [parseStringBody.eq_def]
                  simp [unescapeChar, ih]
                · by_cases h8 : c.toNat < 32
                  · have he : escapeChar c = ['\\', 'u', '0', '0',
                        hexDigitChar (c.toNat / 16), hexDigitChar (c.toNat % 16)] := by
                      rw [escapeChar, if_neg h1, if_neg h2, if_neg h3, if_neg h4,
                        if_neg h5, if_neg h6, if_neg h7, if_pos h8]
                    rw [he]
                    have hv0 : hexVal '0' = some 0 := by decide
                    have hvh : hexVal (hexDigitChar (c.toNat / 16)) = some (c.toNat / 16) :=
                      hexVal_hexDigitChar _ (by omega)
                    have hvl : hexVal (hexDigitChar (c.toNat % 16)) = some (c.toNat % 16) :=
                      hexVal_hexDigitChar _ (by omega)
                    have harith : c.toNat / 16 * 16 + c.toNat % 16 = c.toNat := by omega
                    show parseStringBody ('\\' :: 'u' :: '0' :: '0' ::
                      hexDigitChar (c.toNat / 16) :: hexDigitChar (c.toNat % 16) ::
                      (escapeChars l ++ '"' :: rest)) = _
                    rw [parseStringBody.eq_def]
                    simp [hv0, hvh, hvl, ih, harith, Char.ofNat_toNat]
                  · have he : escapeChar c = [c] := by
                      rw [escapeChar, if_neg h1, if_neg h2, if_neg h3, if_neg h4,
                        if_neg h5, if_neg h6, if_neg h7, if_neg h8]
                    rw [he]
                    show parseStringBody (c :: (escapeChars l ++ '"' :: rest)) = _
                    rw [parseStringBody.eq_def]
                    simp [h1, h2, ih]

theorem isDigit_ne_of (c x : Char) (h : c.isDigit = true) (hx : x.isDigit = false) :
    c ≠ x := fun he => by subst he; rw [h] at hx; exact Bool.noConfusion hx

theorem parseNumPos_digits (m : Nat) (rest : List Char)
    (hrest : ∀ c, rest.head? = some c → c.isDigit = false) :
    parseNumPos (natDigitsChars m ++ rest) = some (.num (m : Int), rest) := by
  have hspan := spanDigits_append (natDigitsChars m) rest
    (natDigitsChars_all_digits _) hrest
  obtain ⟨c, cs, hc⟩ := List.exists_cons_of_ne_nil (natDigitsChars_ne_nil m)
  rw [parseNumPos, hspan]
  have : (natDigitsChars m).isEmpty = false := by rw [hc]; rfl
  simp [this, digitsToNat_natDigitsChars m]

theorem parseNumNeg_digits (m : Nat) (rest : List Char)
    (hrest : ∀ c, rest.head? = some c → c.isDigit = false) :
    parseNumNeg (natDigitsChars m ++ rest) = some (.num (-(m : Int)), rest) := by
  have hspan := spanDigits_append (natDigitsChars m) rest
    (natDigitsChars_all_digits _) hrest
  obtain ⟨c, cs, hc⟩ := List.exists_cons_of_ne_nil (natDigitsChars_ne_nil m)
  rw [parseNumNeg, hspan]
  have : (natDigitsChars m).isEmpty = false := by rw [hc]; rfl
  simp [this, digitsToNat_natDigitsChars m]

theorem parseVal_num (fuel : Nat) (n : Int) (rest : List Char)
    (hrest : ∀ c, rest.head? = some c → c.isDigit = false) :
    parseVal (fuel + 1) (intChars n ++ rest) = some (.num n, rest) := by
  by_cases hn : n < 0
  · rw [intChars, if_pos hn]
    show parseVal (fuel + 1) ('-' :: (natDigitsChars n.natAbs ++ rest)) = _
    rw [parseVal]
    have h1 := parseNumNeg_digits n.natAbs rest hrest
    have hneg : -((n.natAbs : Int)) = n := by omega
    rw [hneg] at h1
    simp [h1]
  · push_neg at hn
    rw [intChars, if_neg (by omega)]
    obtain ⟨c, cs, hc⟩ := List.exists_cons_of_ne_nil (natDigitsChars_ne_nil n.toNat)
    have hcd : c.isDigit = true := by
      apply natDigitsChars_all_digits n.toNat
      rw [hc]; exact List.mem_cons_self c cs
    rw [hc]
    show parseVal (fuel + 1) (c :: (cs ++ rest)) = _
    rw [parseVal]
    have hpp := parseNumPos_digits n.toNat rest hrest
    rw [hc] at hpp
    have hpos : ((n.toNat : Nat) : Int) = n := by omega
    rw [hpos] at hpp
    simp only [List.cons_append] at hpp
    simp [isDigit_ne_of c 'n' hcd (by decide), isDigit_ne_of c 't' hcd (by decide),
      isDigit_ne_of c 'f' hcd (by decide), isDigit_ne_of c '"' hcd (by decide),
      isDigit_ne_of c '[' hcd (by decide), isDigit_ne_of c '{' hcd (by decide),
      isDigit_ne_of c '-' hcd (by decide), hcd, hpp]

theorem stringifyVal_head_spec (v : JSVal) :
    ∃ c cs, stringifyVal v = c :: cs ∧ c ≠ ']' ∧ c ≠ '}' := by
  cases v with
  | undefined => exact ⟨'n', _, rfl, by decide, by decide⟩
  | null => exact ⟨'n', _, rfl, by decide, by decide⟩
  | bool b =>
    cases b with
    | false => exact ⟨'f', _, rfl, by decide, by decide⟩
    | true => exact ⟨'t', _, rfl, by decide, by decide⟩
  | num n =>
    by_cases hn : n < 0
    · exact ⟨'-', _, by rw [stringifyVal, intChars, if_pos hn], by decide, by decide⟩
    · obtain ⟨c, cs, hc⟩ := List.exists_cons_of_ne_nil (natDigitsChars_ne_nil n.toNat)
      have hcd : c.isDigit = true := by
        apply natDigitsChars_all_digits n.toNat
        rw [hc]; exact List.mem_cons_self c cs
      exact ⟨c, cs, by rw [stringifyVal, intChars, if_neg hn, hc],
        isDigit_ne_of c ']' hcd (by decide), isDigit_ne_of c '}' hcd (by decide)⟩
  | str s => exact ⟨'"', _, rfl, by decide, by decide⟩
  | arr xs => exact ⟨'[', _, rfl, by decide, by decide⟩
  | obj fs => exact ⟨'{', _, rfl, by decide, by decide⟩

theorem stringifyVal_length_pos (v : JSVal) : 0 < (stringifyVal v).length := by
  obtain ⟨c, cs, h, _, _⟩ := stringifyVal_head_spec v
  simp [h]

theorem stringifyElems_head_spec (y : JSVal) (ys : List JSVal) :
    ∃ c cs, stringifyElems (y :: ys) = c :: cs ∧ c ≠ ']' ∧ c ≠ '}' := by
  obtain ⟨c, cs', h, h1, h2⟩ := stringifyVal_head_spec y
  cases ys with
  | nil => exact ⟨c, cs', by simp [stringifyElems, h], h1, h2⟩
  | cons z zs =>
    exact ⟨c, cs' ++ ',' :: stringifyElems (z :: zs),
      by simp [stringifyElems, h], h1, h2⟩

theorem stringifyElems_nil : stringifyElems [] = [] := by
  rw [stringifyElems.eq_def]

theorem stringifyElems_singleton (x : JSVal) :
    stringifyElems [x] = stringifyVal x := by
  rw [stringifyElems.eq_def]

theorem stringifyElems_cons2 (x y : JSVal) (ys : List JSVal) :
    stringifyElems (x :: y :: ys) = stringifyVal x ++ ',' :: stringifyElems (y :: ys) := by
  rw [stringifyElems.eq_def]

theorem stringifyFields_nil : stringifyFields [] = [] := by
  rw [stringifyFields.eq_def]

theorem stringifyFields_singleton (k : String) (v : JSVal) :
    stringifyFields [(k, v)] = '"' :: escapeChars k.data ++ '"' :: ':' :: stringifyVal v := by
  rw [stringifyFields.eq_def]

theorem stringifyFields_cons2 (k : String) (v : JSVal) (kv2 : String × JSVal)
    (fs : List (String × JSVal)) :
    stringifyFields ((k, v) :: kv2 :: fs) =
      ('"' :: escapeChars k.data ++ '"' :: ':' :: stringifyVal v) ++
        ',' :: stringifyFields (kv2 :: fs) := by
  rw [stringifyFields.eq_def]

theorem stringifyFields_head (g : String × JSVal) (gs : List (String × JSVal)) :
    ∃ t, stringifyFields (g :: gs) = '"' :: t := by
  rcases g with ⟨gk, gv⟩
  cases gs with
  | nil => exact ⟨_, stringifyFields_singleton gk gv⟩
  | cons g2 gs2 =>
    refine ⟨escapeChars gk.data ++ '"' :: ':' :: (stringifyVal gv ++
      ',' :: stringifyFields (g2 :: gs2)), ?_⟩
    rw [stringifyFields_cons2]
    simp [List.cons_append, List.append_assoc]

mutual

theorem parse_stringify_val : ∀ (v : JSVal) (fuel : Nat) (rest : List Char),
    (stringifyVal (strip v)).length < fuel →
    (∀ c, rest.head? = some c → c.isDigit = false) →
    parseVal fuel (stringifyVal (strip v) ++ rest) = some (strip v, rest)
  | _, 0, _ => fun hf _ => absurd hf (Nat.not_lt_zero _)
  | .undefined, f + 1, rest => fun _ _ => by
    simp only [strip, stringifyVal, List.cons_append, List.nil_append]
    rw [parseVal]
    simp [parseNull]
  | .null, f + 1, rest => fun _ _ => by
    simp only [strip, stringifyVal, List.cons_append, List.nil_append]
    rw [parseVal]
    simp [parseNull]
  | .bool true, f + 1, rest => fun _ _ => by
    simp only [strip, stringifyVal, List.cons_append, List.nil_append]
    rw [parseVal]
    simp [parseTrue]
  | .bool false, f + 1, rest => fun _ _ => by
    simp only [strip, stringifyVal, List.cons_append, List.nil_append]
    rw [parseVal]
    simp [parseFalse]
  | .num n, f + 1, rest => fun _ hr => by
    simp only [strip, stringifyVal]
    exact parseVal_num f n rest hr
  | .str s, f + 1, rest => fun _ _ => by
    simp only [strip, stringifyVal, List.cons_append, List.append_assoc,
      List.nil_append]
    rw [parseVal]
    simp [parseStrLit, parseStringBody_escape s.data rest, mk_data]
  | .arr xs, f + 1, rest => fun hf _ => by
    simp only [strip, stringifyVal, List.cons_append, List.append_assoc,
      List.nil_append] at hf ⊢
    cases hxs : stripList xs with
    | nil =>
      rw [parseVal]
      simp [stringifyElems_nil]
    | cons y ys =>
      cases xs with
      | nil => rw [stripList] at hxs; exact absurd hxs (by simp)
      | cons x0 xs0 =>
        rw [hxs] at hf
        obtain ⟨c, cs', hh, hc1, hc2⟩ := stringifyElems_head_spec y ys
        have happ : parseElems f (stringifyElems (y :: ys) ++ ']' :: rest) [] =
            some (.arr ([] ++ (y :: ys)), rest) := by
          have h2 := parse_stringify_elems x0 xs0 f [] rest
            (by rw [hxs]; simp at hf; omega)
          rwa [hxs] at h2
        rw [parseVal, hh]
        simp only [List.nil_append] at happ
        rw [hh] at happ
        simp only [List.cons_append] at happ ⊢
        simp [happ, hc1]
  | .obj fs, f + 1, rest => fun hf _ => by
    simp only [strip, stringifyVal, List.cons_append, List.append_assoc,
      List.nil_append] at hf ⊢
    cases hfs : stripFields fs with
    | nil =>
      rw [parseVal]
      simp [stringifyFields_nil]
    | cons g gs =>
      cases fs with
      | nil => rw [stripFields] at hfs; exact absurd hfs (by simp)
      | cons kv fs0 =>
        rw [hfs] at hf
        obtain ⟨t, hh⟩ := stringifyFields_head g gs
        have happ : parseFields f (stringifyFields (g :: gs) ++ '}' :: rest) [] =
            some (.obj ([] ++ (g :: gs)), rest) := by
          have h2 := parse_stringify_fields kv fs0 f [] rest
            (by rw [hfs]; simp at hf; omega) (by rw [hfs]; simp)
          rwa [hfs] at h2
        rw [parseVal, hh]
        simp only [List.nil_append] at happ
        rw [hh] at happ
        simp only [List.cons_append] at happ ⊢
        simp [happ]
termination_by v fuel rest => sizeOf v

theorem parse_stringify_elems : ∀ (x : JSVal) (xs : List JSVal) (fuel : Nat)
    (acc : List JSVal) (rest : List Char),
    (stringifyElems (stripList (x :: xs))).length + 1 < fuel →
    parseElems fuel (stringifyElems (stripList (x :: xs)) ++ ']' :: rest) acc =
      some (.arr (acc ++ stripList (x :: xs)), rest)
  | _, _, 0, _, _ => fun hf => absurd hf (Nat.not_lt_zero _)
  | x, xs, f + 1, acc, rest => fun hf => by
    rw [stripList] at hf ⊢
    cases hxs : stripList xs with
    | nil =>
      rw [hxs] at hf
      rw [stringifyElems_singleton] at hf ⊢
      have hv := parse_stringify_val x f (']' :: rest)
        (by omega) (by intro c hc; simp at hc; subst hc; decide)
      rw [parseElems, hv]
      simp
    | cons y ys =>
      cases xs with
      | nil => rw [stripList] at hxs; exact absurd hxs (by simp)
      | cons x2 xs2 =>
        rw [hxs] at hf
        rw [stringifyElems_cons2] at hf ⊢
        have hpos := stringifyVal_length_pos (strip x)
        have hv := parse_stringify_val x f
          (',' :: (stringifyElems (y :: ys) ++ ']' :: rest))
          (by simp at hf; omega)
          (by intro c hc; simp at hc; subst hc; decide)
        have happ : parseElems f (stringifyElems (y :: ys) ++ ']' :: rest)
            (acc ++ [strip x]) =
            some (.arr ((acc ++ [strip x]) ++ (y :: ys)), rest) := by
          have h2 := parse_stringify_elems x2 xs2 f (acc ++ [strip x]) rest
            (by rw [hxs]; simp at hf; omega)
          rwa [hxs] at h2
        rw [List.append_assoc, List.cons_append]
        rw [parseElems, hv]
        simp only [List.append_assoc, List.singleton_append] at happ ⊢
        simp [happ]
termination_by x xs fuel acc rest => sizeOf (x :: xs)

theorem parse_stringify_fields : ∀ (kv : String × JSVal)
    (fs : List (String × JSVal)) (fuel : Nat)
    (acc : List (String × JSVal)) (rest : List Char),
    (stringifyFields (stripFields (kv :: fs))).length + 1 < fuel →
    stripFields (kv :: fs) ≠ [] →
    parseFields fuel (stringifyFields (stripFields (kv :: fs)) ++ '}' :: rest) acc =
      some (.obj (acc ++ stripFields (kv :: fs)), rest)
  | _, _, 0, _, _ => fun hf _ => absurd hf (Nat.not_lt_zero _)
  | (k, v), fs, f + 1, acc, rest => fun hf hne => by
    by_cases hv : v = JSVal.undefined
    · rw [show stripFields ((k, v) :: fs) = stripFields fs from by
        rw [stripFields, if_pos hv]] at hf hne ⊢
      cases fs with
      | nil => rw [stripFields] at hne; exact absurd rfl hne
      | cons kv2 fs2 => exact parse_stringify_fields kv2 fs2 (f + 1) acc rest hf hne
    · rw [show stripFields ((k, v) :: fs) = (k, strip v) :: stripFields fs from by
        rw [stripFields, if_neg hv]] at hf ⊢
      cases hfs : stripFields fs with
      | nil =>
        rw [hfs] at hf
        rw [stringifyFields_singleton] at hf ⊢
        have hval := parse_stringify_val v f ('}' :: rest)
          (by simp at hf; omega)
          (by intro c hc; simp at hc; subst hc; decide)
        have hkey := parseStringBody_escape k.data
          (':' :: (stringifyVal (strip v) ++ '}' :: rest))
        simp only [List.cons_append, List.append_assoc]
        rw [parseFields]
        simp only [List.head?, List.tail]
        simp [hkey, hval, mk_data]
      | cons g2 gs2 =>
        cases fs with
        | nil => rw [stripFields] at hfs; exact absurd hfs (by simp)
        | cons kv2 fs2 =>
          rw [hfs] at hf
          rw [stringifyFields_cons2] at hf ⊢
          have hpos := stringifyVal_length_pos (strip v)
          have hval := parse_stringify_val v f
            (',' :: (stringifyFields (g2 :: gs2) ++ '}' :: rest))
            (by simp at hf; omega)
            (by intro c hc; simp at hc; subst hc; decide)
          have hkey := parseStringBody_escape k.data
            (':' :: (stringifyVal (strip v) ++
              (',' :: (stringifyFields (g2 :: gs2) ++ '}' :: rest))))
          have happ : parseFields f (stringifyFields (g2 :: gs2) ++ '}' :: rest)
              (acc ++ [(k, strip v)]) =
              some (.obj ((acc ++ [(k, strip v)]) ++ (g2 :: gs2)), rest) := by
            have h2 := parse_stringify_fields kv2 fs2 f (acc ++ [(k, strip v)]) rest
              (by rw [hfs]; simp at hf; omega) (by rw [hfs]; simp)
            rwa [hfs] at h2
          simp only [List.cons_append, List.append_assoc]
          rw [parseFields]
          simp only [List.head?, List.tail]
          simp only [List.append_assoc, List.singleton_append] at happ ⊢
          simp [hkey, hval, mk_data, happ]
termination_by kv fs fuel acc rest => sizeOf (kv :: fs)

end

/-- The round-trip: parsing a freshly stringified value recovers the value up
to JSON normalisation. -/
theorem jsonParse_jsonStringify (v : JSVal) :
    jsonParse (jsonStringify v) = some (strip v) := by
  have h := parse_stringify_val v ((stringifyVal (strip v)).length + 1) []
    (by omega) (by intro c hc; simp at hc)
  rw [List.append_nil] at h
  have hlen : (String.mk (stringifyVal (strip v))).length
      = (stringifyVal (strip v)).length := rfl
  have hdata : (String.mk (stringifyVal (strip v))).data
      = stringifyVal (strip v) := rfl
  rw [jsonStringify, jsonParse, hlen, hdata, h]

/-!
## Helper lemmas about the embedded program
-/

theorem mapWithIndex_length (f : Nat → JSObj → JSObj) :
    ∀ (i : Nat) (l : List JSObj), (mapWithIndex f i l).length = l.length
  | _, [] => rfl
  | i, x :: xs => by
    rw [mapWithIndex, List.length_cons, List.length_cons, mapWithIndex_length f (i + 1) xs]

theorem mapWithIndex_getElem? (f : Nat → JSObj → JSObj) :
    ∀ (i : Nat) (l : List JSObj) (j : Nat),
      (mapWithIndex f i l)[j]? = (l[j]?).map (f (i + j))
  | _, [], j => by simp [mapWithIndex]
  | i, x :: xs, 0 => by simp [mapWithIndex]
  | i, x :: xs, j + 1 => by
    rw [mapWithIndex]
    simp only [List.getElem?_cons_succ]
    rw [mapWithIndex_getElem? f (i + 1) xs j]
    have harith : i + 1 + j = i + (j + 1) := by omega
    rw [harith]

theorem lookup_filter_not_mem (b : JSObj) :
    ∀ (a : JSObj) (k : String), (b.lookup k).isSome →
      (a.filter (fun kv => (b.lookup kv.1).isNone)).lookup k = none
  | [], _, _ => rfl
  | (k1, v1) :: a, k, hb => by
    by_cases h1 : (b.lookup k1).isNone
    · rw [List.filter_cons_of_pos (by simpa using h1)]
      have hne : (k == k1) = false := by
        rw [beq_eq_false_iff_ne]
        intro he
        subst he
        rw [Option.isNone_iff_eq_none] at h1
        rw [h1] at hb
        exact Bool.noConfusion hb
      rw [List.lookup, hne]
      exact lookup_filter_not_mem b a k hb
    · rw [List.filter_cons_of_neg (by simpa using h1)]
      exact lookup_filter_not_mem b a k hb

theorem lookup_filter_none (b : JSObj) :
    ∀ (a : JSObj) (k : String), b.lookup k = none →
      (a.filter (fun kv => (b.lookup kv.1).isNone)).lookup k = a.lookup k
  | [], _, _ => rfl
  | (k1, v1) :: a, k, hb => by
    by_cases hk : k = k1
    · subst hk
      rw [List.filter_cons_of_pos (by simp [hb])]
      rw [List.lookup, List.lookup]
      simp
    · have hne : (k == k1) = false := by rwa [beq_eq_false_iff_ne]
      by_cases h1 : (b.lookup k1).isNone
      · rw [List.filter_cons_of_pos (by simpa using h1)]
        rw [List.lookup, List.lookup, hne]
        exact lookup_filter_none b a k hb
      · rw [List.filter_cons_of_neg (by simpa using h1)]
        rw [List.lookup, hne]
        exact lookup_filter_none b a k hb

theorem lookup_append_right {α β : Type} [BEq α] :
    ∀ (l1 l2 : List (α × β)) (k : α), l1.lookup k = none →
      (l1 ++ l2).lookup k = l2.lookup k
  | [], l2, k, _ => rfl
  | (k1, v1) :: l1, l2, k, h => by
    rw [List.cons_append, List.lookup]
    rw [List.lookup] at h
    cases hk : (k == k1) with
    | true => rw [hk] at h; exact Option.noConfusion h
    | false =>
      rw [hk] at h
      exact lookup_append_right l1 l2 k h

theorem lookup_append_left {α β : Type} [BEq α] :
    ∀ (l1 l2 : List (α × β)) (k : α) (v : β), l1.lookup k = some v →
      (l1 ++ l2).lookup k = some v
  | [], l2, k, v, h => Option.noConfusion h
  | (k1, v1) :: l1, l2, k, v, h => by
    rw [List.cons_append, List.lookup]
    rw [List.lookup] at h
    cases hk : (k == k1) with
    | true => rw [hk] at h; exact h
    | false =>
      rw [hk] at h
      exact lookup_append_left l1 l2 k v h

/-- Pointwise reading of the object spread: the second object's entries win. -/
theorem spreadMerge_objGet (a b : JSObj) (k : String) :
    objGet (spreadMerge a b) k =
      if (b.lookup k).isSome then objGet b k else objGet a k := by
  by_cases hb : (b.lookup k).isSome
  · rw [if_pos hb, spreadMerge, objGet, objGet,
      lookup_append_right _ _ _ (lookup_filter_not_mem b a k hb)]
  · have hbn : b.lookup k = none := Option.not_isSome_iff_eq_none.mp hb
    rw [if_neg hb, spreadMerge, objGet, objGet]
    cases ha : a.lookup k with
    | none =>
      rw [lookup_append_right _ _ _ (by rw [lookup_filter_none b a k hbn]; exact ha)]
      rw [hbn]
    | some v =>
      rw [lookup_append_left _ _ _ _ (by rw [lookup_filter_none b a k hbn]; exact ha)]

/-- Spreading a caller-absent `contextInfo` leaves exactly the default. -/
theorem spreadMerge_nil (a : JSObj) : spreadMerge a [] = a := by
  rw [spreadMerge, List.append_nil]
  rw [List.filter_eq_self.mpr]
  intro kv _
  rfl

/-- The instrumented tap-target callback returns exactly the pure one: every
throw inside the `try` block is caught, and the caught paths leave the same
empty-string default the pure model computes. -/
theorem mkTapTargetE_ok (i : Nat) (b : JSObj) :
    mkTapTargetE i b = .ok (mkTapTarget i b) := by
  rw [mkTapTargetE, mkTapTarget]
  cases hp : jsonParse (jsCoerceString (objGet b "buttonParamsJson")) with
  | none => simp [jsonParseE, hp, jsOr, truthy, Bind.bind, Except.bind]
  | some p =>
    cases p <;>
      simp [jsonParseE, hp, jsGetFieldE, jsGetField, jsOr, truthy,
        Bind.bind, Except.bind]

theorem mapWithIndexE_ok :
    ∀ (i : Nat) (l : List JSObj),
      mapWithIndexE mkTapTargetE i l = .ok (mapWithIndex mkTapTarget i l)
  | _, [] => rfl
  | i, x :: xs => by
    rw [mapWithIndexE, mapWithIndex, mkTapTargetE_ok i x,
      mapWithIndexE_ok (i + 1) xs]
    simp [Bind.bind, Except.bind]

/-- The instrumented assembler never returns an error: it refines the pure
function. -/
theorem createIOSWebviewMessageE_ok (opts : IOSWebviewOptions) :
    createIOSWebviewMessageE opts = .ok (createIOSWebviewMessage opts) := by
  rw [createIOSWebviewMessageE, createIOSWebviewMessage]
  rw [show mapWithIndexE mkTapTargetE 0 (urlButtonsOf opts.buttons)
      = .ok (tapTargetListOf opts.buttons) from by
    rw [mapWithIndexE_ok, tapTargetListOf]]
  simp [Bind.bind, Except.bind]

theorem stripFields_lookup_ne (k k1 : String) (v : JSVal)
    (fs : List (String × JSVal)) (h : (k == k1) = false) :
    (stripFields ((k1, v) :: fs)).lookup k = (stripFields fs).lookup k := by
  rw [stripFields]
  by_cases hv : v = JSVal.undefined
  · rw [if_pos hv]
  · rw [if_neg hv, List.lookup, h]

theorem stripFields_lookup_eq (k : String) (v : JSVal)
    (fs : List (String × JSVal)) :
    (stripFields ((k, v) :: fs)).lookup k =
      if v = JSVal.undefined then (stripFields fs).lookup k else some (strip v) := by
  rw [stripFields]
  by_cases hv : v = JSVal.undefined
  · rw [if_pos hv, if_pos hv]
  · rw [if_neg hv, if_neg hv, List.lookup]
    simp

/-- In the JSON round-trip of the rebuilt params, the `url` field reads back
as the button's `url` normalised: dropped exactly when it was `undefined`. -/
theorem buttonParams_strip_url (b : JSObj) :
    jsGetField (strip (JSVal.obj (buttonParams b))) "url" =
      if objGet b "url" = JSVal.undefined then JSVal.undefined
      else strip (objGet b "url") := by
  rw [strip, jsGetField, objGet, buttonParams]
  rw [stripFields_lookup_ne _ _ _ _ (by decide)]
  rw [stripFields_lookup_eq]
  by_cases hu : objGet b "url" = JSVal.undefined
  · rw [if_pos hu, if_pos hu]
    rw [stripFields_lookup_ne _ _ _ _ (by decide),
      stripFields_lookup_ne _ _ _ _ (by decide),
      stripFields_lookup_ne _ _ _ _ (by decide),
      stripFields_lookup_ne _ _ _ _ (by decide)]
    rfl
  · rw [if_neg hu, if_neg hu]
    rfl

/-- Likewise for the `landing_page_url` field. -/
theorem buttonParams_strip_landing (b : JSObj) :
    jsGetField (strip (JSVal.obj (buttonParams b))) "landing_page_url" =
      if jsOr (objGet b "landingPageUrl") (objGet b "url") = JSVal.undefined
      then JSVal.undefined
      else strip (jsOr (objGet b "landingPageUrl") (objGet b "url")) := by
  rw [strip, jsGetField, objGet, buttonParams]
  rw [stripFields_lookup_ne _ _ _ _ (by decide),
    stripFields_lookup_ne _ _ _ _ (by decide),
    stripFields_lookup_ne _ _ _ _ (by decide),
    stripFields_lookup_ne _ _ _ _ (by decide)]
  rw [stripFields_lookup_eq]
  by_cases hu : jsOr (objGet b "landingPageUrl") (objGet b "url") = JSVal.undefined
  · rw [if_pos hu, if_pos hu]
    rw [stripFields_lookup_ne _ _ _ _ (by decide)]
    rfl
  · rw [if_neg hu, if_neg hu]
    rfl

/-- A matched button is replaced by the normalised two-field descriptor. -/
theorem processButton_matched (b : JSObj)
    (h : objGet b "type" = JSVal.str "webview" ∨ objGet b "name" = JSVal.str "cta_url") :
    processButton b =
      [("name", JSVal.str "cta_url"),
       ("buttonParamsJson", JSVal.str (jsonStringify (JSVal.obj (buttonParams b))))] := by
  rw [processButton, if_pos h]

theorem objGet_cons_self (k : String) (v : JSVal) (fs : JSObj) :
    objGet ((k, v) :: fs) k = v := by
  rw [objGet, List.lookup]
  simp

theorem objGet_cons_ne (k k1 : String) (v : JSVal) (fs : JSObj)
    (h : (k == k1) = false) :
    objGet ((k1, v) :: fs) k = objGet fs k := by
  rw [objGet, List.lookup, h, objGet]

theorem jsCoerceString_str (s : String) : jsCoerceString (JSVal.str s) = s := by
  rw [jsCoerceString]

/-!
## Concrete inputs used by witnesses and counterexamples
-/

/-- A plain webview button with a string url. -/
def buttonW2 : JSObj := [("type", JSVal.str "webview"), ("url", JSVal.str "u")]

/-- A second webview button, used as the index-1 button. -/
def buttonW4b : JSObj := [("type", JSVal.str "webview"), ("url", JSVal.str "v")]

/-- A webview button whose `url` is an object with an `undefined`-valued
field: JSON serialisation drops that field, so the round-trip is not the
identity on it. -/
def buttonC2 : JSObj :=
  [("type", JSVal.str "webview"), ("url", JSVal.obj [("a", JSVal.undefined)])]

/-- A webview button with a present-but-empty `url` and a non-empty
`landingPageUrl`. -/
def buttonC4 : JSObj :=
  [("type", JSVal.str "webview"), ("url", JSVal.str ""),
   ("landingPageUrl", JSVal.str "y")]

/-- A `cta_url`-named button carrying malformed pre-supplied
`buttonParamsJson` and a url. -/
def buttonC6 : JSObj :=
  [("name", JSVal.str "cta_url"), ("buttonParamsJson", JSVal.str "oops"),
   ("url", JSVal.str "x")]

/-- A `cta_url`-named button carrying malformed pre-supplied
`buttonParamsJson` and no url fields. -/
def buttonW6 : JSObj :=
  [("name", JSVal.str "cta_url"), ("buttonParamsJson", JSVal.str "oops")]

/-- Options with two webview buttons. -/
def optsW4 : IOSWebviewOptions :=
  { bodyText := JSVal.str "hi", buttons := [buttonW2, buttonW4b] }

/-- Options with the malformed-JSON button. -/
def optsW6 : IOSWebviewOptions := { buttons := [buttonW6] }

/-- Options with one webview button. -/
def optsW10 : IOSWebviewOptions := { buttons := [buttonW2] }

/-!
## The claims
-/

/-- Claim C1: for every input to `createIOSWebviewMessage`, each button whose
`type` equals `"webview"` or whose `name` equals `"cta_url"` is replaced, in
its original position, by exactly
`\x7bname: "cta_url", buttonParamsJson: <JSON of the rebuilt params>\x7d`; every
other button passes through unchanged, and the output button sequence has the
same length and order as the input. -/
theorem claim_C1_buttons_normalized (opts : IOSWebviewOptions) :
    ((createIOSWebviewMessage opts).interactiveMessage.nativeFlowMessage.buttons.length
      = opts.buttons.length) ∧
    ∀ i : Nat,
      ((createIOSWebviewMessage opts).interactiveMessage.nativeFlowMessage.buttons)[i]? =
        (opts.buttons[i]?).map (fun b =>
          if objGet b "type" = JSVal.str "webview" ∨ objGet b "name" = JSVal.str "cta_url"
          then
            [("name", JSVal.str "cta_url"),
             ("buttonParamsJson", JSVal.str (jsonStringify (JSVal.obj (buttonParams b))))]
          else b) := by
  constructor
  · simp [createIOSWebviewMessage, assembleMessage, processedButtonsOf]
  · intro i
    simp only [createIOSWebviewMessage, assembleMessage, processedButtonsOf,
      List.getElem?_map]
    cases opts.buttons[i]? with
    | none => rfl
    | some b => simp [processButton]

/-- Claim C2 counterexample: for the webview button whose `url` is the object
`\x7ba: undefined\x7d`, the JSON round-trip drops the `undefined`-valued field, so
the parsed params' `url` does not equal the original button's `url`; the
claim as stated (parsed `url` equals the original) is false at this input. -/
theorem claim_C2_counterexample :
    jsGetField
        ((jsonParse (jsCoerceString (objGet (processButton buttonC2) "buttonParamsJson"))).getD
          JSVal.null)
        "url"
      ≠ objGet buttonC2 "url" := by decide

/-- Claim C2 (amended): for any button with `type === "webview"`, the
normalised output has `name === "cta_url"`, and `JSON.parse` of its
`buttonParamsJson` succeeds, yielding a mapping whose `url` field equals the
JSON normalisation of the original button's `url` (absent when it was
`undefined`, with `undefined`-valued object fields dropped inside it) — in
particular equal to the original `url` whenever that is a string, number,
boolean or null. -/
theorem claim_C2_url_roundtrip_amended (b : JSObj)
    (h : objGet b "type" = JSVal.str "webview") :
    objGet (processButton b) "name" = JSVal.str "cta_url" ∧
    ∃ p, jsonParse (jsCoerceString (objGet (processButton b) "buttonParamsJson")) = some p ∧
      jsGetField p "url" =
        (if objGet b "url" = JSVal.undefined then JSVal.undefined
         else strip (objGet b "url")) := by
  rw [processButton_matched b (Or.inl h)]
  constructor
  · rw [objGet_cons_self]
  · refine ⟨strip (JSVal.obj (buttonParams b)), ?_, ?_⟩
    · rw [objGet_cons_ne _ _ _ _ (by decide), objGet_cons_self, jsCoerceString_str]
      exact jsonParse_jsonStringify _
    · exact buttonParams_strip_url b

/-- Claim C2 witness: the amended claim at a concrete webview button with a
string url. -/
theorem claim_C2_witness :
    objGet (processButton buttonW2) "name" = JSVal.str "cta_url" ∧
    ∃ p, jsonParse (jsCoerceString (objGet (processButton buttonW2) "buttonParamsJson"))
        = some p ∧
      jsGetField p "url" =
        (if objGet buttonW2 "url" = JSVal.undefined then JSVal.undefined
         else strip (objGet buttonW2 "url")) :=
  claim_C2_url_roundtrip_amended buttonW2 (by decide)

/-- Claim C3: in the params mapping serialised into `buttonParamsJson`,
`payment_link_preview` equals the button's `paymentLinkPreview` whenever that
field is defined (an explicit `false` or `true` is preserved) and defaults to
`false` exactly when it is `undefined`; `webview_interaction` likewise with
default `true`; `webview_presentation` defaults to `null` and
`landing_page_url` defaults to the button's `url` when absent. -/
theorem claim_C3_param_defaults (b : JSObj) :
    objGet (buttonParams b) "payment_link_preview" =
      (if objGet b "paymentLinkPreview" = JSVal.undefined then JSVal.bool false
       else objGet b "paymentLinkPreview") ∧
    objGet (buttonParams b) "webview_interaction" =
      (if objGet b "webviewInteraction" = JSVal.undefined then JSVal.bool true
       else objGet b "webviewInteraction") ∧
    (objGet b "webviewPresentation" = JSVal.undefined →
      objGet (buttonParams b) "webview_presentation" = JSVal.null) ∧
    (objGet b "landingPageUrl" = JSVal.undefined →
      objGet (buttonParams b) "landing_page_url" = objGet b "url") := by
  refine ⟨?_, ?_, ?_, ?_⟩
  · rw [buttonParams, objGet_cons_ne _ _ _ _ (by decide),
      objGet_cons_ne _ _ _ _ (by decide), objGet_cons_ne _ _ _ _ (by decide),
      objGet_cons_self]
  · rw [buttonParams, objGet_cons_ne _ _ _ _ (by decide),
      objGet_cons_ne _ _ _ _ (by decide), objGet_cons_ne _ _ _ _ (by decide),
      objGet_cons_ne _ _ _ _ (by decide), objGet_cons_ne _ _ _ _ (by decide),
      objGet_cons_self]
  · intro h
    rw [buttonParams, objGet_cons_ne _ _ _ _ (by decide),
      objGet_cons_ne _ _ _ _ (by decide), objGet_cons_self, h]
    rfl
  · intro h
    rw [buttonParams, objGet_cons_ne _ _ _ _ (by decide),
      objGet_cons_ne _ _ _ _ (by decide), objGet_cons_ne _ _ _ _ (by decide),
      objGet_cons_ne _ _ _ _ (by decide), objGet_cons_self, h]
    rw [jsOr]
    simp [truthy]

/-- Claim C3 witness: the defaults at the empty button, where every source
field is absent. -/
theorem claim_C3_witness :
    objGet (buttonParams []) "payment_link_preview" = JSVal.bool false ∧
    objGet (buttonParams []) "webview_interaction" = JSVal.bool true ∧
    objGet (buttonParams []) "webview_presentation" = JSVal.null ∧
    objGet (buttonParams []) "landing_page_url" = objGet ([] : JSObj) "url" := by
  obtain ⟨h1, h2, h3, h4⟩ := claim_C3_param_defaults []
  exact ⟨by rw [h1]; decide, by rw [h2]; decide, h3 (by decide), h4 (by decide)⟩

/-- Claim C4 counterexample: for a webview button with `url: ""` and
`landingPageUrl: "y"`, the parsed params' `url` field is present (it equals
the empty string), yet the derived tap target's `canonical_url` is `"y"`,
not that `url`: the code falls back on any falsy `url` (`||`), not only on an
absent one, so the claim's "url if present" is false at this input. -/
theorem claim_C4_counterexample :
    (jsonParse (jsCoerceString (objGet (processButton buttonC4) "buttonParamsJson"))
        = some (strip (JSVal.obj (buttonParams buttonC4)))) ∧
    jsGetField (strip (JSVal.obj (buttonParams buttonC4))) "url" = JSVal.str "" ∧
    objGet ((tapTargetListOf [buttonC4]).headD []) "canonical_url" = JSVal.str "y" ∧
    JSVal.str "y" ≠ JSVal.str "" := by
  exact ⟨by decide, by decide, by decide, by decide⟩

/-- Claim C4 (amended): `tap_target_list` has one entry per normalised
`cta_url` button, in filtered order; entry `i` is exactly
`\x7bcanonical_url, url_type: "STATIC", button_index: i, tap_target_format: 1\x7d`
with the `button_index` values the contiguous 0-based positions in the
filtered sequence, and `canonical_url` the parsed params' `url` if truthy,
else its `landing_page_url` if truthy, else the empty string (empty on parse
failure). -/
theorem claim_C4_tap_targets_amended (opts : IOSWebviewOptions) :
    (tapTargetListOf opts.buttons).length = (urlButtonsOf opts.buttons).length ∧
    ∀ (i : Nat) (b : JSObj), (urlButtonsOf opts.buttons)[i]? = some b →
      (tapTargetListOf opts.buttons)[i]? = some
        [("canonical_url",
           match jsonParse (jsCoerceString (objGet b "buttonParamsJson")) with
           | some p => jsOr (jsGetField p "url")
               (jsOr (jsGetField p "landing_page_url") (JSVal.str ""))
           | none => JSVal.str ""),
         ("url_type", JSVal.str "STATIC"),
         ("button_index", JSVal.num i),
         ("tap_target_format", JSVal.num 1)] := by
  constructor
  · rw [tapTargetListOf, mapWithIndex_length]
  · intro i b hb
    rw [tapTargetListOf, mapWithIndex_getElem? mkTapTarget 0 _ i, hb]
    simp [mkTapTarget]

/-- Claim C4 witness: the amended claim at index 1 of a two-button input:
the entry carries `button_index` 1 and the second button's url. -/
theorem claim_C4_witness :
    (tapTargetListOf optsW4.buttons).length = (urlButtonsOf optsW4.buttons).length ∧
    (tapTargetListOf optsW4.buttons)[1]? = some
      [("canonical_url", JSVal.str "v"),
       ("url_type", JSVal.str "STATIC"),
       ("button_index", JSVal.num 1),
       ("tap_target_format", JSVal.num 1)] := by
  refine ⟨(claim_C4_tap_targets_amended optsW4).1, ?_⟩
  have h := (claim_C4_tap_targets_amended optsW4).2 1 (processButton buttonW4b)
    (by decide)
  rw [h]
  decide

/-- Claim C5: the object serialised into `messageParamsJson` has
`tap_target_configuration` equal to the first tap target when the list is
non-empty and to an empty mapping otherwise, and `bottom_sheet` exactly
`\x7bin_thread_buttons_limit: 3, divider_indices: []\x7d`; the serialised string in
the output is the JSON of exactly this object. -/
theorem claim_C5_message_params (opts : IOSWebviewOptions) :
    ((createIOSWebviewMessage opts).interactiveMessage.nativeFlowMessage.messageParamsJson
        = jsonStringify (messageParamsOf opts.buttons)) ∧
    jsGetField (messageParamsOf opts.buttons) "tap_target_configuration" =
      (match tapTargetListOf opts.buttons with
       | [] => JSVal.obj []
       | t :: _ => JSVal.obj t) ∧
    jsGetField (messageParamsOf opts.buttons) "bottom_sheet" =
      JSVal.obj [("in_thread_buttons_limit", JSVal.num 3),
                 ("divider_indices", JSVal.arr [])] ∧
    jsGetField (messageParamsOf opts.buttons) "tap_target_list" =
      JSVal.arr ((tapTargetListOf opts.buttons).map JSVal.obj) := by
  refine ⟨rfl, ?_, ?_, ?_⟩
  · rw [messageParamsOf]
    simp only [messageParamsFromList]
    rw [jsGetField, objGet_cons_ne _ _ _ _ (by decide), objGet_cons_self]
  · rw [messageParamsOf]
    simp only [messageParamsFromList]
    rw [jsGetField, objGet_cons_self]
  · rw [messageParamsOf]
    simp only [messageParamsFromList]
    rw [jsGetField, objGet_cons_ne _ _ _ _ (by decide),
      objGet_cons_ne _ _ _ _ (by decide), objGet_cons_self]

/-- Claim C6 counterexample: a `cta_url`-named button with malformed
pre-supplied `buttonParamsJson` but a `url` of `"x"` yields a tap target with
`canonical_url "x"`, not the empty string: the malformed JSON is discarded
and the params rebuilt from the button's raw fields before any parsing. -/
theorem claim_C6_counterexample :
    jsonParse (jsCoerceString (objGet buttonC6 "buttonParamsJson")) = none ∧
    objGet ((tapTargetListOf [buttonC6]).headD []) "canonical_url" = JSVal.str "x" ∧
    JSVal.str "x" ≠ JSVal.str "" := by
  exact ⟨by decide, by decide, by decide⟩

/-- Claim C6 (amended): a `cta_url`-named button whose pre-supplied
`buttonParamsJson` is not valid JSON never makes the function throw (the
instrumented variant returns `ok` on every input); the malformed string is
discarded and the params rebuilt from the button's raw fields, so the derived
tap target's `canonical_url` is the empty string provided the button's `url`
and `landingPageUrl` are absent. -/
theorem claim_C6_malformed_json_amended (b : JSObj) (j : Nat)
    (hname : objGet b "name" = JSVal.str "cta_url")
    (hbad : jsonParse (jsCoerceString (objGet b "buttonParamsJson")) = none)
    (hurl : objGet b "url" = JSVal.undefined)
    (hlpu : objGet b "landingPageUrl" = JSVal.undefined) :
    (∀ opts : IOSWebviewOptions,
      createIOSWebviewMessageE opts = Except.ok (createIOSWebviewMessage opts)) ∧
    objGet (mkTapTarget j (processButton b)) "canonical_url" = JSVal.str "" := by
  refine ⟨createIOSWebviewMessageE_ok, ?_⟩
  rw [processButton_matched b (Or.inr hname)]
  have hbp : objGet [("name", JSVal.str "cta_url"),
      ("buttonParamsJson", JSVal.str (jsonStringify (JSVal.obj (buttonParams b))))]
      "buttonParamsJson" = JSVal.str (jsonStringify (JSVal.obj (buttonParams b))) := by
    rw [objGet_cons_ne _ _ _ _ (by decide), objGet_cons_self]
  rw [mkTapTarget, hbp, jsCoerceString_str, jsonParse_jsonStringify]
  show objGet
    [("canonical_url",
       jsOr (jsGetField (strip (JSVal.obj (buttonParams b))) "url")
         (jsOr (jsGetField (strip (JSVal.obj (buttonParams b))) "landing_page_url")
           (JSVal.str ""))),
     ("url_type", JSVal.str "STATIC"),
     ("button_index", JSVal.num j),
     ("tap_target_format", JSVal.num 1)] "canonical_url" = JSVal.str ""
  rw [objGet_cons_self, buttonParams_strip_url, buttonParams_strip_landing,
    if_pos hurl, if_pos (by rw [hlpu, hurl]; rfl)]
  simp [jsOr, truthy]

/-- Claim C6 witness: the amended claim at the concrete malformed-JSON
button with no url fields. -/
theorem claim_C6_witness :
    createIOSWebviewMessageE optsW6 = Except.ok (createIOSWebviewMessage optsW6) ∧
    objGet (mkTapTarget 0 (processButton buttonW6)) "canonical_url" = JSVal.str "" := by
  have h := claim_C6_malformed_json_amended buttonW6 0 (by decide) (by decide)
    (by decide) (by decide)
  exact ⟨h.1 optsW6, h.2⟩

/-- Claim C7: the output has a header iff one of `imageMessage`, `title`,
`subtitle` is truthy, and a footer equal to `\x7btext: footerText\x7d` iff
`footerText` is truthy; a present header has `hasMediaAttachment` the boolean
coercion of `imageMessage`, and each of `imageMessage`, `title`, `subtitle`
is copied in only when truthy, never as a falsy placeholder. -/
theorem claim_C7_header_footer (opts : IOSWebviewOptions) :
    ((createIOSWebviewMessage opts).interactiveMessage.header.isSome
      = (truthy opts.imageMessage || truthy opts.title || truthy opts.subtitle)) ∧
    ((createIOSWebviewMessage opts).interactiveMessage.header =
      if truthy opts.imageMessage || truthy opts.title || truthy opts.subtitle then
        some
          { hasMediaAttachment := truthy opts.imageMessage
            imageMessage :=
              if truthy opts.imageMessage then some opts.imageMessage else none
            title := if truthy opts.title then some opts.title else none
            subtitle := if truthy opts.subtitle then some opts.subtitle else none }
      else none) ∧
    ((createIOSWebviewMessage opts).interactiveMessage.footer =
      if truthy opts.footerText then some [("text", opts.footerText)] else none) := by
  refine ⟨?_, rfl, rfl⟩
  show (if truthy opts.imageMessage || truthy opts.title || truthy opts.subtitle
      then some
        { hasMediaAttachment := truthy opts.imageMessage
          imageMessage :=
            if truthy opts.imageMessage then some opts.imageMessage else none
          title := if truthy opts.title then some opts.title else none
          subtitle := if truthy opts.subtitle then some opts.subtitle else none }
      else (none : Option IOSHeader)).isSome
    = (truthy opts.imageMessage || truthy opts.title || truthy opts.subtitle)
  cases hx : (truthy opts.imageMessage || truthy opts.title || truthy opts.subtitle) with
  | true => simp [hx]
  | false => simp [hx]

/-- Claim C8: the output `contextInfo` is the shallow merge of the fixed
default `\x7bdataSharingContext: \x7bshowMmDisclosure: false\x7d\x7d` with the caller's
`contextInfo`, the caller winning on key collision; with no caller
`contextInfo` it is exactly the default. -/
theorem claim_C8_context_info (opts : IOSWebviewOptions) :
    ((createIOSWebviewMessage opts).interactiveMessage.contextInfo =
      spreadMerge
        [("dataSharingContext", JSVal.obj [("showMmDisclosure", JSVal.bool false)])]
        opts.contextInfo) ∧
    (∀ k : String,
      objGet ((createIOSWebviewMessage opts).interactiveMessage.contextInfo) k =
        if (opts.contextInfo.lookup k).isSome then objGet opts.contextInfo k
        else objGet
          [("dataSharingContext", JSVal.obj [("showMmDisclosure", JSVal.bool false)])]
          k) ∧
    (opts.contextInfo = [] →
      (createIOSWebviewMessage opts).interactiveMessage.contextInfo =
        [("dataSharingContext", JSVal.obj [("showMmDisclosure", JSVal.bool false)])]) := by
  refine ⟨rfl, ?_, ?_⟩
  · intro k
    exact spreadMerge_objGet _ opts.contextInfo k
  · intro h0
    show spreadMerge _ opts.contextInfo = _
    rw [h0, spreadMerge_nil]

/-- Claim C8 witness: with no caller-supplied `contextInfo` (the default
options), the output `contextInfo` is exactly the fixed default. -/
theorem claim_C8_witness :
    (createIOSWebviewMessage {}).interactiveMessage.contextInfo =
      [("dataSharingContext", JSVal.obj [("showMmDisclosure", JSVal.bool false)])] :=
  (claim_C8_context_info {}).2.2 rfl

/-- Claim C9: the function raises no exception on any input: the
`Except`-instrumented variant, in which the `JSON.parse` and the property
reads inside the per-button `try` block are the fallible operations, returns
`ok` of the pure function's value on every options object; the embedding is a
pure function of its input. -/
theorem claim_C9_no_exceptions (opts : IOSWebviewOptions) :
    createIOSWebviewMessageE opts = Except.ok (createIOSWebviewMessage opts) :=
  createIOSWebviewMessageE_ok opts

/-- Claim C10: the JSON-parse failure branch in tap-target derivation is
unreachable: every member of the filtered `cta_url` sequence is the
normalisation of some input button that matched the predicate, so its
`buttonParamsJson` was freshly produced by `JSON.stringify` in the same call
(any pre-supplied value discarded), and `JSON.parse` of it succeeds with an
object. -/
theorem claim_C10_parse_succeeds (opts : IOSWebviewOptions) (b : JSObj)
    (h : b ∈ urlButtonsOf opts.buttons) :
    (∃ b0, b0 ∈ opts.buttons ∧
        (objGet b0 "type" = JSVal.str "webview" ∨ objGet b0 "name" = JSVal.str "cta_url") ∧
        b = [("name", JSVal.str "cta_url"),
             ("buttonParamsJson",
               JSVal.str (jsonStringify (JSVal.obj (buttonParams b0))))]) ∧
    ∃ fs, jsonParse (jsCoerceString (objGet b "buttonParamsJson"))
        = some (JSVal.obj fs) := by
  rw [urlButtonsOf, processedButtonsOf] at h
  obtain ⟨hmem, hname⟩ := List.mem_filter.mp h
  obtain ⟨b0, hb0, rfl⟩ := List.mem_map.mp hmem
  have hpred : objGet b0 "type" = JSVal.str "webview"
      ∨ objGet b0 "name" = JSVal.str "cta_url" := by
    by_contra hnot
    rw [processButton, if_neg hnot, nameIsCtaUrl] at hname
    exact hnot (Or.inr (of_decide_eq_true hname))
  refine ⟨⟨b0, hb0, hpred, processButton_matched b0 hpred⟩, ?_⟩
  rw [processButton_matched b0 hpred]
  rw [objGet_cons_ne _ _ _ _ (by decide), objGet_cons_self, jsCoerceString_str]
  refine ⟨stripFields (buttonParams b0), ?_⟩
  rw [jsonParse_jsonStringify, strip]

/-- Claim C10 witness: the property at the single processed button of a
concrete one-button input. -/
theorem claim_C10_witness :
    (∃ b0, b0 ∈ optsW10.buttons ∧
        (objGet b0 "type" = JSVal.str "webview" ∨ objGet b0 "name" = JSVal.str "cta_url") ∧
        processButton buttonW2 =
          [("name", JSVal.str "cta_url"),
           ("buttonParamsJson",
             JSVal.str (jsonStringify (JSVal.obj (buttonParams b0))))]) ∧
    ∃ fs, jsonParse (jsCoerceString (objGet (processButton buttonW2) "buttonParamsJson"))
        = some (JSVal.obj fs) :=
  claim_C10_parse_succeeds optsW10 (processButton buttonW2) (by decide)
